import Mathlib

/-!
Verification development for the logistic-growth population simulator
(codeKomnumB.c).  The C program's double-precision arithmetic is embedded
as exact rational arithmetic; the single transcendental operation (the
half-capacity logarithm) is embedded over the reals.  The simulation loop
is embedded as a fuel-indexed structural recursion whose fuel is the
step count computed by the program, so termination is structural.
-/

/-- Parameter struct mirroring the C PopulationParams. -/
structure PopulationParams where
  r : ℚ
  K : ℚ
  P0 : ℚ
  t_max : ℚ
  dt : ℚ
deriving DecidableEq

/-- Logistic derivative dP/dt = r * P * (1 - P/K), mirroring logistic_growth.
The time argument is accepted but unused, exactly as in the C source. -/
def logistic_growth (t : ℚ) (P : ℚ) (params : PopulationParams) : ℚ :=
  params.r * P * (1 - P / params.K)

/-- Classical RK4 step over the logistic derivative, mirroring runge_kutta_4. -/
def runge_kutta_4 (t P dt : ℚ) (params : PopulationParams) : ℚ :=
  let k1 := dt * logistic_growth t P params
  let k2 := dt * logistic_growth (t + dt / 2) (P + k1 / 2) params
  let k3 := dt * logistic_growth (t + dt / 2) (P + k2 / 2) params
  let k4 := dt * logistic_growth (t + dt) (P + k3) params
  P + (k1 + 2 * k2 + 2 * k3 + k4) / 6

/-- Generic RK4 stepper transcribed from the specification (section 4.1),
parameterised over an arbitrary derivative function.  This definition follows
the spec text and exists only to be compared with the source definition. -/
def rk4_step_spec (derivative : ℚ → ℚ → ℚ) (t P dt : ℚ) : ℚ :=
  let k1 := dt * derivative t P
  let k2 := dt * derivative (t + dt / 2) (P + k1 / 2)
  let k3 := dt * derivative (t + dt / 2) (P + k2 / 2)
  let k4 := dt * derivative (t + dt) (P + k3)
  P + (k1 + 2 * k2 + 2 * k3 + k4) / 6

/-- Truncation toward zero, the semantics of the C cast (int)q. -/
def cIntTrunc (q : ℚ) : ℤ :=
  if 0 ≤ q then ⌊q⌋ else ⌈q⌉

/-- Step count computed by run_simulation: int steps = (int)(t_max / dt). -/
def sim_steps (params : PopulationParams) : ℤ :=
  cIntTrunc (params.t_max / params.dt)

/-- Record emitted once per loop iteration of run_simulation (the fields
written to population_data.csv, in order). -/
structure SimulationSample where
  t : ℚ
  P : ℚ
  growthRate : ℚ
  percentOfK : ℚ
deriving DecidableEq

/-- Body of the run_simulation for-loop, with the remaining iteration count as
fuel.  Each iteration emits the current (pre-step) sample, advances the state
with RK4, and stops early (recording the post-step time and population as the
capacity event) when the post-step population reaches 99.9 percent of K. -/
def simLoop (params : PopulationParams) :
    ℚ → ℚ → ℕ → List SimulationSample × Option (ℚ × ℚ)
  | _, _, 0 => ([], none)
  | t, P, fuel + 1 =>
    let s : SimulationSample := ⟨t, P, logistic_growth t P params, P / params.K * 100⟩
    let Pn := runge_kutta_4 t P params.dt params
    let tn := t + params.dt
    if params.K * (999 / 1000) ≤ Pn then
      ([s], some (tn, Pn))
    else
      let rest := simLoop params tn Pn fuel
      (s :: rest.1, rest.2)

/-- Embedding of run_simulation: the loop runs for i = 0 .. steps inclusive,
that is with fuel steps + 1 (and not at all if steps is negative). -/
def run_simulation (params : PopulationParams) :
    List SimulationSample × Option (ℚ × ℚ) :=
  simLoop params 0 params.P0 (sim_steps params + 1).toNat

/-- Equilibrium points reported by analyze_model: P = 0 and P = K. -/
def equilibria (params : PopulationParams) : ℚ × ℚ :=
  (0, params.K)

/-- Maximum growth rate computed by analyze_model:
P_max_growth = K / 2 and rate = r * P_max_growth * (1 - P_max_growth / K).
The pair is (rate, atPopulation). -/
def maxGrowthRate (params : PopulationParams) : ℚ × ℚ :=
  let P_max_growth := params.K / 2
  (params.r * P_max_growth * (1 - P_max_growth / params.K), P_max_growth)

/-- Half-capacity time computed by analyze_model:
t_half = log(K / P0 - 1) / r, over the reals. -/
noncomputable def halfCapacityTime (params : PopulationParams) : ℝ :=
  Real.log ((params.K : ℝ) / (params.P0 : ℝ) - 1) / (params.r : ℝ)

/-- Reporting guard of analyze_model: the half-capacity time is printed
exactly when the computed value is strictly positive. -/
def reportsHalfCapacity (params : PopulationParams) : Prop :=
  0 < halfCapacityTime params

/-- Validation performed by input_parameters: any non-positive parameter is
fatal (exit(1)), modelled as none. -/
def input_parameters (r K P0 t_max dt : ℚ) : Option PopulationParams :=
  if r ≤ 0 ∨ K ≤ 0 ∨ P0 ≤ 0 ∨ t_max ≤ 0 ∨ dt ≤ 0 then none
  else some ⟨r, K, P0, t_max, dt⟩

/-- Manual-entry path of main: validate, then run analysis and simulation.
A validation failure produces no analysis output and no samples. -/
def main_manual (r K P0 t_max dt : ℚ) :
    Option ((ℚ × ℚ) × (ℚ × ℚ) × (List SimulationSample × Option (ℚ × ℚ))) :=
  (input_parameters r K P0 t_max dt).map
    (fun p => (equilibria p, maxGrowthRate p, run_simulation p))

/-- Parameters of the literal bacteria scenario in main:
r = 0.5, K = 1000, P0 = 10, t_max = 50, dt = 0.1. -/
def p8 : PopulationParams :=
  ⟨1 / 2, 1000, 10, 50, 1 / 10⟩

/-- RK4 update map of the bacteria scenario (the derivative is
time-invariant, so the time argument is irrelevant). -/
def g8 (P : ℚ) : ℚ :=
  runge_kutta_4 0 P (1 / 10) p8

/-- Iterated RK4 orbit of the bacteria scenario. -/
def orb : ℚ → ℕ → ℚ
  | P, 0 => P
  | P, n + 1 => orb (g8 P) n

/-! ## Basic unfolding lemmas -/

theorem simLoop_succ (p : PopulationParams) (t P : ℚ) (n : ℕ) :
    simLoop p t P (n + 1) =
      if p.K * (999 / 1000) ≤ runge_kutta_4 t P p.dt p then
        ([⟨t, P, logistic_growth t P p, P / p.K * 100⟩],
          some (t + p.dt, runge_kutta_4 t P p.dt p))
      else
        (⟨t, P, logistic_growth t P p, P / p.K * 100⟩ ::
            (simLoop p (t + p.dt) (runge_kutta_4 t P p.dt p) n).1,
          (simLoop p (t + p.dt) (runge_kutta_4 t P p.dt p) n).2) := by
  rfl

/-! ## C1: the RK4 stepper agrees with the spec scheme -/

/-- C1: runge_kutta_4 is exactly the classical fixed-step RK4 scheme of the
specification applied to the logistic derivative f(t, P) = r * P * (1 - P/K);
being a pure function of its arguments, it is deterministic and has no side
effects. -/
theorem runge_kutta_4_refines_spec (t P dt : ℚ) (params : PopulationParams) :
    runge_kutta_4 t P dt params =
      rk4_step_spec (fun _ Q => params.r * Q * (1 - Q / params.K)) t P dt := by
  rfl

/-! ## C3: capacity-threshold early termination -/

/-- C3: in any iteration of the simulation loop, if the just-computed
post-step population reaches 99.9 percent of K, the loop emits the
capacity event carrying the post-step time (and population) and stops:
the only sample emitted in that iteration is the pre-threshold state, and
no further samples are produced. -/
theorem capacity_break (p : PopulationParams) (t P : ℚ) (n : ℕ)
    (hfire : p.K * (999 / 1000) ≤ runge_kutta_4 t P p.dt p) :
    simLoop p t P (n + 1) =
      ([⟨t, P, logistic_growth t P p, P / p.K * 100⟩],
        some (t + p.dt, runge_kutta_4 t P p.dt p)) := by
  rw [simLoop_succ, if_pos hfire]

/-- Witness for C3 at r = 1, K = 1, P0 = 1 (the first RK4 step is already at
capacity, so the loop fires immediately). -/
theorem capacity_break_witness :
    (⟨1, 1, 1, 1, 1⟩ : PopulationParams).K * (999 / 1000) ≤
        runge_kutta_4 0 1 (⟨1, 1, 1, 1, 1⟩ : PopulationParams).dt ⟨1, 1, 1, 1, 1⟩ ∧
      simLoop ⟨1, 1, 1, 1, 1⟩ 0 1 1 =
        ([⟨0, 1, logistic_growth 0 1 ⟨1, 1, 1, 1, 1⟩,
            1 / (⟨1, 1, 1, 1, 1⟩ : PopulationParams).K * 100⟩],
          some (0 + (⟨1, 1, 1, 1, 1⟩ : PopulationParams).dt,
            runge_kutta_4 0 1 (⟨1, 1, 1, 1, 1⟩ : PopulationParams).dt ⟨1, 1, 1, 1, 1⟩)) :=
  ⟨by norm_num [runge_kutta_4, logistic_growth],
    capacity_break ⟨1, 1, 1, 1, 1⟩ 0 1 0 (by norm_num [runge_kutta_4, logistic_growth])⟩

/-! ## C5: closed form of the maximum growth rate -/

/-- C5: the analyzer's maximum-growth output is exactly
(rate, atPopulation) = (r * K / 4, K / 2) for every parameter set with
positive K. -/
theorem maxGrowthRate_closed (p : PopulationParams) (hK : 0 < p.K) :
    maxGrowthRate p = (p.r * p.K / 4, p.K / 2) := by
  have hK0 : p.K ≠ 0 := ne_of_gt hK
  simp only [maxGrowthRate, Prod.mk.injEq]
  constructor
  · field_simp
    ring
  · trivial

/-- Witness for C5 at r = 2, K = 8. -/
theorem maxGrowthRate_closed_witness :
    (0 : ℚ) < (⟨2, 8, 1, 1, 1⟩ : PopulationParams).K ∧
      maxGrowthRate ⟨2, 8, 1, 1, 1⟩ =
        ((⟨2, 8, 1, 1, 1⟩ : PopulationParams).r * (⟨2, 8, 1, 1, 1⟩ : PopulationParams).K / 4,
          (⟨2, 8, 1, 1, 1⟩ : PopulationParams).K / 2) :=
  ⟨by norm_num, maxGrowthRate_closed ⟨2, 8, 1, 1, 1⟩ (by norm_num)⟩

/-! ## C7: invalid parameters are rejected at the boundary -/

/-- C7: if any of r, K, P0, t_max, dt supplied at the boundary is
non-positive, validation fails before any work: neither analysis nor
simulation output is produced. -/
theorem invalid_parameter_rejected (r K P0 t_max dt : ℚ)
    (h : r ≤ 0 ∨ K ≤ 0 ∨ P0 ≤ 0 ∨ t_max ≤ 0 ∨ dt ≤ 0) :
    main_manual r K P0 t_max dt = none := by
  simp [main_manual, input_parameters, h]

/-- Witness for C7: a negative growth rate is rejected. -/
theorem invalid_parameter_rejected_witness :
    ((-1 : ℚ) ≤ 0 ∨ (1 : ℚ) ≤ 0 ∨ (1 : ℚ) ≤ 0 ∨ (1 : ℚ) ≤ 0 ∨ (1 : ℚ) ≤ 0) ∧
      main_manual (-1) 1 1 1 1 = none :=
  ⟨by norm_num, invalid_parameter_rejected (-1) 1 1 1 1 (by norm_num)⟩

/-! ## C9: the equilibria are exact fixed points of the RK4 step -/

/-- C9: for every time and step size and all valid parameters, a single RK4
step taken exactly at either equilibrium returns it exactly: all four slopes
vanish identically, so runge_kutta_4 at P = K returns K and at P = 0
returns 0. -/
theorem rk4_fixed_points (t dt : ℚ) (p : PopulationParams)
    (hr : 0 < p.r) (hK : 0 < p.K) :
    runge_kutta_4 t p.K dt p = p.K ∧ runge_kutta_4 t 0 dt p = 0 := by
  have hK0 : p.K ≠ 0 := ne_of_gt hK
  constructor
  · simp only [runge_kutta_4, logistic_growth]
    field_simp
  · simp only [runge_kutta_4, logistic_growth]
    ring

/-! ## Loop structure lemmas for C2 and C4 -/

theorem simLoop_zero (p : PopulationParams) (t P : ℚ) :
    simLoop p t P 0 = ([], none) := rfl

theorem simLoop_length (p : PopulationParams) :
    ∀ (n : ℕ) (t P : ℚ), (simLoop p t P n).1.length ≤ n
  | 0, _, _ => by simp [simLoop_zero]
  | n + 1, t, P => by
    rw [simLoop_succ]
    split
    · simp
    · simpa using Nat.succ_le_succ
        (simLoop_length p n (t + p.dt) (runge_kutta_4 t P p.dt p))

theorem simLoop_head_t (p : PopulationParams) (t P : ℚ) (n : ℕ) :
    (((simLoop p t P (n + 1)).1).map SimulationSample.t).head? = some t := by
  rw [simLoop_succ]
  split <;> simp

theorem simLoop_chain_t (p : PopulationParams) (hdt : 0 < p.dt) :
    ∀ (n : ℕ) (t P : ℚ),
      List.Chain' (· < ·) ((simLoop p t P n).1.map SimulationSample.t)
  | 0, _, _ => by simp [simLoop_zero]
  | n + 1, t, P => by
    rw [simLoop_succ]
    split
    · simp
    · rw [List.map_cons, List.chain'_cons']
      refine ⟨?_, simLoop_chain_t p hdt n (t + p.dt) (runge_kutta_4 t P p.dt p)⟩
      intro y hy
      cases n with
      | zero => simp [simLoop_zero] at hy
      | succ m =>
        rw [simLoop_head_t] at hy
        rw [Option.mem_some_iff] at hy
        subst hy
        linarith

/-! ## C2: termination and sample-count bound -/

/-- C2: for valid parameters the simulation always halts with at most
floor(t_max / dt) + 1 samples (the step count is the truncation of
t_max / dt, which for positive parameters is the floor, and the final
partial interval is dropped), and the emitted sample times are strictly
increasing. -/
theorem run_simulation_bounds (p : PopulationParams) (hr : 0 < p.r)
    (hK : 0 < p.K) (hP0 : 0 < p.P0) (ht : 0 < p.t_max) (hdt : 0 < p.dt) :
    (run_simulation p).1.length ≤ (⌊p.t_max / p.dt⌋).toNat + 1 ∧
      List.Chain' (· < ·) ((run_simulation p).1.map SimulationSample.t) := by
  have hq : 0 < p.t_max / p.dt := div_pos ht hdt
  have hsteps : sim_steps p = ⌊p.t_max / p.dt⌋ := by
    unfold sim_steps cIntTrunc
    rw [if_pos (le_of_lt hq)]
  have hfloor : 0 ≤ ⌊p.t_max / p.dt⌋ := Int.floor_nonneg.2 (le_of_lt hq)
  constructor
  · have hlen := simLoop_length p ((sim_steps p + 1).toNat) 0 p.P0
    have hfuel : (sim_steps p + 1).toNat = (⌊p.t_max / p.dt⌋).toNat + 1 := by
      rw [hsteps]
      omega
    unfold run_simulation
    rw [hfuel] at hlen ⊢
    exact hlen
  · exact simLoop_chain_t p hdt ((sim_steps p + 1).toNat) 0 p.P0

/-- Witness for C2 at r = 1, K = 2, P0 = 1, t_max = 1, dt = 2. -/
theorem run_simulation_bounds_witness :
    (0 : ℚ) < (⟨1, 2, 1, 1, 2⟩ : PopulationParams).r ∧
      (0 : ℚ) < (⟨1, 2, 1, 1, 2⟩ : PopulationParams).K ∧
      (0 : ℚ) < (⟨1, 2, 1, 1, 2⟩ : PopulationParams).P0 ∧
      (0 : ℚ) < (⟨1, 2, 1, 1, 2⟩ : PopulationParams).t_max ∧
      (0 : ℚ) < (⟨1, 2, 1, 1, 2⟩ : PopulationParams).dt ∧
      ((run_simulation ⟨1, 2, 1, 1, 2⟩).1.length ≤
          (⌊(⟨1, 2, 1, 1, 2⟩ : PopulationParams).t_max /
              (⟨1, 2, 1, 1, 2⟩ : PopulationParams).dt⌋).toNat + 1 ∧
        List.Chain' (· < ·)
          ((run_simulation ⟨1, 2, 1, 1, 2⟩).1.map SimulationSample.t)) :=
  ⟨by norm_num, by norm_num, by norm_num, by norm_num, by norm_num,
    run_simulation_bounds ⟨1, 2, 1, 1, 2⟩ (by norm_num) (by norm_num)
      (by norm_num) (by norm_num) (by norm_num)⟩

/-! ## C4: the emitted populations are bounded by K, but strict increase
fails for large step sizes -/

/-- Counterexample to C4 as stated: with the valid parameters r = 8,
K = 1000, 0 < P0 = 500 < K, t_max = 1, dt = 1, the second emitted
population is far below the first, so the emitted sequence of P values is
not strictly increasing. -/
theorem monotone_increase_counterexample :
    ((0 : ℚ) < 8 ∧ (0 : ℚ) < 1000 ∧ (0 : ℚ) < 500 ∧ (0 : ℚ) < 1 ∧
        (500 : ℚ) < 1000) ∧
      ¬ List.Chain' (· < ·)
        ((run_simulation ⟨8, 1000, 500, 1, 1⟩).1.map SimulationSample.P) := by
  refine ⟨by norm_num, ?_⟩
  have hrun : (run_simulation ⟨8, 1000, 500, 1, 1⟩).1.map SimulationSample.P =
      [500, -6557500] := by
    norm_num [run_simulation, sim_steps, cIntTrunc, simLoop, runge_kutta_4,
      logistic_growth]
  rw [hrun]
  simp only [List.chain'_cons, List.chain'_singleton, and_true]
  norm_num

theorem simLoop_P_le (p : PopulationParams) (hK : 0 < p.K) :
    ∀ (n : ℕ) (t P : ℚ), P < p.K → ∀ s ∈ (simLoop p t P n).1, s.P ≤ p.K
  | 0, _, _, _, s, hs => by simp [simLoop_zero] at hs
  | n + 1, t, P, hP, s, hs => by
    rw [simLoop_succ] at hs
    split at hs
    · rw [List.mem_singleton] at hs
      subst hs
      exact le_of_lt hP
    · rename_i hmiss
      rcases List.mem_cons.1 hs with h | h
      · subst h
        exact le_of_lt hP
      · have hPn : runge_kutta_4 t P p.dt p < p.K := by
          rw [not_le] at hmiss
          nlinarith
        exact simLoop_P_le p hK n (t + p.dt) (runge_kutta_4 t P p.dt p) hPn s h

/-- C4 (amended): for all valid parameters with 0 < P0 < K, every emitted
population value is at most K (any sample after the first carries a value
that failed the 99.9 percent capacity test, hence lies below K); the
strict-increase half of the original claim fails for large dt. -/
theorem run_simulation_P_bounded (p : PopulationParams) (hK : 0 < p.K)
    (hP0 : p.P0 < p.K) : ∀ s ∈ (run_simulation p).1, s.P ≤ p.K :=
  simLoop_P_le p hK ((sim_steps p + 1).toNat) 0 p.P0 hP0

/-- Witness for the amended C4 at r = 1, K = 2, P0 = 1, t_max = 1, dt = 2:
the first emitted sample has population 1 which is at most K. -/
theorem run_simulation_P_bounded_witness :
    (0 : ℚ) < (⟨1, 2, 1, 1, 2⟩ : PopulationParams).K ∧
      (⟨1, 2, 1, 1, 2⟩ : PopulationParams).P0 < (⟨1, 2, 1, 1, 2⟩ : PopulationParams).K ∧
      (⟨0, 1, 1 / 2, 50⟩ : SimulationSample).P ≤ (⟨1, 2, 1, 1, 2⟩ : PopulationParams).K :=
  ⟨by norm_num, by norm_num,
    run_simulation_P_bounded ⟨1, 2, 1, 1, 2⟩ (by norm_num) (by norm_num)
      ⟨0, 1, 1 / 2, 50⟩
      (by norm_num [run_simulation, sim_steps, cIntTrunc, simLoop,
        runge_kutta_4, logistic_growth])⟩

/-- Witness for C9 at r = 1, K = 5, dt = 1. -/
theorem rk4_fixed_points_witness :
    (0 : ℚ) < (⟨1, 5, 1, 1, 1⟩ : PopulationParams).r ∧
      (0 : ℚ) < (⟨1, 5, 1, 1, 1⟩ : PopulationParams).K ∧
      runge_kutta_4 0 (⟨1, 5, 1, 1, 1⟩ : PopulationParams).K 1 ⟨1, 5, 1, 1, 1⟩ =
        (⟨1, 5, 1, 1, 1⟩ : PopulationParams).K ∧
      runge_kutta_4 0 0 1 ⟨1, 5, 1, 1, 1⟩ = 0 :=
  ⟨by norm_num, by norm_num,
    (rk4_fixed_points 0 1 ⟨1, 5, 1, 1, 1⟩ (by norm_num) (by norm_num)).1,
    (rk4_fixed_points 0 1 ⟨1, 5, 1, 1, 1⟩ (by norm_num) (by norm_num)).2⟩

/-! ## C6 and C10: the half-capacity reporting guard -/

theorem log_nonpos_of_abs_le_one (x : ℝ) (hgt : -1 < x) (hle : x ≤ 1) :
    Real.log x ≤ 0 := by
  rcases le_or_lt 0 x with h | h
  · exact Real.log_nonpos h hle
  · rw [← Real.log_neg_eq_log]
    exact Real.log_nonpos (by linarith) (by linarith)

/-- C6: with valid parameters and P0 at or above K, the computed
half-capacity time log(K / P0 - 1) / r is non-positive (the embedded real
logarithm assigns its junk value to the non-positive argument, matching the
C guard behaviour on NaN and -inf, which also compare false against 0), so
the report is suppressed while both the analysis and the simulation still
proceed and produce output. -/
theorem halfCapacity_degenerate (p : PopulationParams) (hr : 0 < p.r)
    (hK : 0 < p.K) (hP0 : 0 < p.P0) (ht : 0 < p.t_max) (hdt : 0 < p.dt)
    (hdeg : p.K ≤ p.P0) :
    halfCapacityTime p ≤ 0 ∧ ¬ reportsHalfCapacity p ∧
      (run_simulation p).1 ≠ [] ∧ equilibria p = (0, p.K) := by
  have hr' : (0 : ℝ) < (p.r : ℝ) := by exact_mod_cast hr
  have hK' : (0 : ℝ) < (p.K : ℝ) := by exact_mod_cast hK
  have hP0' : (0 : ℝ) < (p.P0 : ℝ) := by exact_mod_cast hP0
  have hdeg' : (p.K : ℝ) ≤ (p.P0 : ℝ) := by exact_mod_cast hdeg
  have hratio_pos : 0 < (p.K : ℝ) / (p.P0 : ℝ) := div_pos hK' hP0'
  have hratio_le : (p.K : ℝ) / (p.P0 : ℝ) ≤ 1 := (div_le_one hP0').2 hdeg'
  have hlog : Real.log ((p.K : ℝ) / (p.P0 : ℝ) - 1) ≤ 0 :=
    log_nonpos_of_abs_le_one _ (by linarith) (by linarith)
  have hth : halfCapacityTime p ≤ 0 := by
    unfold halfCapacityTime
    exact div_nonpos_iff.2 (Or.inr ⟨hlog, le_of_lt hr'⟩)
  refine ⟨hth, not_lt.2 hth, ?_, rfl⟩
  have hq : 0 < p.t_max / p.dt := div_pos ht hdt
  have hsteps : 0 ≤ sim_steps p := by
    unfold sim_steps cIntTrunc
    rw [if_pos (le_of_lt hq)]
    exact Int.floor_nonneg.2 (le_of_lt hq)
  obtain ⟨m, hm⟩ : ∃ m, (sim_steps p + 1).toNat = m + 1 :=
    ⟨(sim_steps p).toNat, by omega⟩
  unfold run_simulation
  rw [hm, simLoop_succ]
  split <;> simp

/-- Witness for C6 at r = 1, K = 2, P0 = 3 (degenerate regime). -/
theorem halfCapacity_degenerate_witness :
    ((0 : ℚ) < 1 ∧ (0 : ℚ) < 2 ∧ (0 : ℚ) < 3 ∧ (0 : ℚ) < 4 ∧ (0 : ℚ) < 5 ∧
        (2 : ℚ) ≤ 3) ∧
      (halfCapacityTime ⟨1, 2, 3, 4, 5⟩ ≤ 0 ∧
        ¬ reportsHalfCapacity ⟨1, 2, 3, 4, 5⟩ ∧
        (run_simulation ⟨1, 2, 3, 4, 5⟩).1 ≠ [] ∧
        equilibria ⟨1, 2, 3, 4, 5⟩ = (0, (⟨1, 2, 3, 4, 5⟩ : PopulationParams).K)) :=
  ⟨by norm_num,
    halfCapacity_degenerate ⟨1, 2, 3, 4, 5⟩ (by norm_num) (by norm_num)
      (by norm_num) (by norm_num) (by norm_num) (by norm_num)⟩

/-- C10: for valid parameters the half-capacity time is reported if and only
if the computed value is strictly positive, which holds exactly when
P0 < K / 2; in the regime K / 2 <= P0 < K the well-defined result is zero or
negative and silently suppressed, and for P0 >= K the junk value of the
logarithm also fails the guard, with no runtime error in either case. -/
theorem halfCapacity_report_iff (p : PopulationParams) (hr : 0 < p.r)
    (hK : 0 < p.K) (hP0 : 0 < p.P0) :
    reportsHalfCapacity p ↔ 2 * p.P0 < p.K := by
  have hr' : (0 : ℝ) < (p.r : ℝ) := by exact_mod_cast hr
  have hK' : (0 : ℝ) < (p.K : ℝ) := by exact_mod_cast hK
  have hP0' : (0 : ℝ) < (p.P0 : ℝ) := by exact_mod_cast hP0
  have hratio_pos : 0 < (p.K : ℝ) / (p.P0 : ℝ) := div_pos hK' hP0'
  unfold reportsHalfCapacity halfCapacityTime
  constructor
  · intro h
    rcases div_pos_iff.1 h with ⟨hlog, _⟩ | ⟨_, hrneg⟩
    · by_contra hcon
      rw [not_lt] at hcon
      have hcon' : (p.K : ℝ) ≤ 2 * (p.P0 : ℝ) := by exact_mod_cast hcon
      have hx_le : (p.K : ℝ) / (p.P0 : ℝ) - 1 ≤ 1 := by
        have h2 : (p.K : ℝ) / (p.P0 : ℝ) ≤ 2 := (div_le_iff hP0').2 (by linarith)
        linarith
      have := log_nonpos_of_abs_le_one ((p.K : ℝ) / (p.P0 : ℝ) - 1)
        (by linarith) hx_le
      linarith
    · linarith
  · intro h
    have h' : (2 : ℝ) * (p.P0 : ℝ) < (p.K : ℝ) := by exact_mod_cast h
    have hx : 1 < (p.K : ℝ) / (p.P0 : ℝ) - 1 := by
      have h2 : (2 : ℝ) < (p.K : ℝ) / (p.P0 : ℝ) := by
        rw [lt_div_iff hP0']
        linarith
      linarith
    exact div_pos (Real.log_pos hx) hr'

/-- Witness for C10 at r = 1, K = 100, P0 = 10. -/
theorem halfCapacity_report_iff_witness :
    ((0 : ℚ) < 1 ∧ (0 : ℚ) < 100 ∧ (0 : ℚ) < 10) ∧
      (reportsHalfCapacity ⟨1, 100, 10, 1, 1⟩ ↔
        2 * (⟨1, 100, 10, 1, 1⟩ : PopulationParams).P0 <
          (⟨1, 100, 10, 1, 1⟩ : PopulationParams).K) :=
  ⟨by norm_num,
    halfCapacity_report_iff ⟨1, 100, 10, 1, 1⟩ (by norm_num) (by norm_num)
      (by norm_num)⟩

/-! ## C8: the literal bacteria scenario

The quantitative core: on [0, 1000] one RK4 step of the scenario gains at
least 97 percent of the Euler increment, because each of the four slopes is
within 1/40, 41/1600 and 1641/32000 of the first one (the logistic
derivative is (r = 1/2)-Lipschitz on the relevant range and dt = 1/10). -/

theorem g8_step_lower (P : ℚ) (h0 : 0 ≤ P) (h1 : P ≤ 1000) :
    P + (97 / 2000) * (P * (1 - P / 1000)) ≤ g8 P := by
  obtain ⟨k1, e1⟩ : ∃ x, x = (1 / 10 : ℚ) * logistic_growth 0 P p8 := ⟨_, rfl⟩
  obtain ⟨k2, e2⟩ : ∃ x, x =
      (1 / 10 : ℚ) * logistic_growth (0 + 1 / 10 / 2) (P + k1 / 2) p8 := ⟨_, rfl⟩
  obtain ⟨k3, e3⟩ : ∃ x, x =
      (1 / 10 : ℚ) * logistic_growth (0 + 1 / 10 / 2) (P + k2 / 2) p8 := ⟨_, rfl⟩
  obtain ⟨k4, e4⟩ : ∃ x, x =
      (1 / 10 : ℚ) * logistic_growth (0 + 1 / 10) (P + k3) p8 := ⟨_, rfl⟩
  have hg : g8 P = P + (k1 + 2 * k2 + 2 * k3 + k4) / 6 := by
    rw [e4, e3, e2, e1]
    rfl
  have f1 : k1 = P * (1000 - P) / 20000 := by
    rw [e1]
    simp only [logistic_growth, p8]
    ring
  have hk1nn : 0 ≤ k1 := by
    rw [f1]
    exact div_nonneg (mul_nonneg h0 (by linarith)) (by norm_num)
  have hX1 : 2 * P + k1 / 2 ≤ 2000 := by
    rw [f1]
    linarith [mul_nonneg (by linarith : (0 : ℚ) ≤ 1000 - P)
      (by linarith : (0 : ℚ) ≤ 80000 - P)]
  have hX1lb : 0 ≤ 2 * P + k1 / 2 := by linarith
  have hd2 : k2 = k1 + (k1 / 40) * (1 - (2 * P + k1 / 2) / 1000) := by
    rw [e2, e1]
    simp only [logistic_growth, p8]
    ring
  have h2l : (39 / 40) * k1 ≤ k2 := by
    rw [hd2]
    linarith [mul_nonneg hk1nn (by linarith : (0 : ℚ) ≤ 2000 - (2 * P + k1 / 2))]
  have h2u : k2 ≤ (41 / 40) * k1 := by
    rw [hd2]
    linarith [mul_nonneg hk1nn hX1lb]
  have hk2nn : 0 ≤ k2 := by linarith
  have hroom2 : 2 * P + (41 / 80) * k1 ≤ 2000 := by
    rw [f1]
    linarith [mul_nonneg (by linarith : (0 : ℚ) ≤ 1000 - P)
      (by linarith : (0 : ℚ) ≤ 3200000 - 41 * P)]
  have hX2 : 2 * P + k2 / 2 ≤ 2000 := by linarith
  have hX2lb : 0 ≤ 2 * P + k2 / 2 := by linarith
  have hd3 : k3 = k1 + (k2 / 40) * (1 - (2 * P + k2 / 2) / 1000) := by
    rw [e3, e1]
    simp only [logistic_growth, p8]
    ring
  have h3l : k1 - k2 / 40 ≤ k3 := by
    rw [hd3]
    linarith [mul_nonneg hk2nn (by linarith : (0 : ℚ) ≤ 2000 - (2 * P + k2 / 2))]
  have h3u : k3 ≤ k1 + k2 / 40 := by
    rw [hd3]
    linarith [mul_nonneg hk2nn hX2lb]
  have h3l2 : (1559 / 1600) * k1 ≤ k3 := by linarith
  have h3u2 : k3 ≤ (1641 / 1600) * k1 := by linarith
  have hk3nn : 0 ≤ k3 := by linarith
  have hroom3 : 2 * P + (1641 / 1600) * k1 ≤ 2000 := by
    rw [f1]
    linarith [mul_nonneg (by linarith : (0 : ℚ) ≤ 1000 - P)
      (by linarith : (0 : ℚ) ≤ 64000000 - 1641 * P)]
  have hX3 : 2 * P + k3 ≤ 2000 := by linarith
  have hX3lb : 0 ≤ 2 * P + k3 := by linarith
  have hd4 : k4 = k1 + (k3 / 20) * (1 - (2 * P + k3) / 1000) := by
    rw [e4, e1]
    simp only [logistic_growth, p8]
    ring
  have h4l : k1 - k3 / 20 ≤ k4 := by
    rw [hd4]
    linarith [mul_nonneg hk3nn (by linarith : (0 : ℚ) ≤ 2000 - (2 * P + k3))]
  have h4l2 : (30359 / 32000) * k1 ≤ k4 := by linarith
  have hfin : (97 / 2000) * (P * (1 - P / 1000)) = (97 / 100) * k1 := by
    rw [f1]
    ring
  rw [hg, hfin]
  linarith

/-- Interval form of the per-step bound: on [0, B] with B at most 1000 the
RK4 map multiplies the population by at least 1 + (97/2000)(1 - B/1000). -/
theorem g8_grow (B Q : ℚ) (h0 : 0 ≤ Q) (hQB : Q ≤ B) (hB : B ≤ 1000) :
    (1 + 97 * (1000 - B) / 2000000) * Q ≤ g8 Q := by
  have h1 : Q ≤ 1000 := le_trans hQB hB
  have hmain := g8_step_lower Q h0 h1
  linarith [hmain, mul_nonneg h0 (sub_nonneg.2 hQB)]

/-- Splitting of the orbit at an intermediate index. -/
theorem orb_add (a : ℕ) : ∀ (b : ℕ) (P : ℚ), orb P (a + b) = orb (orb P a) b := by
  induction a with
  | zero =>
    intro b P
    rw [Nat.zero_add]
    rfl
  | succ m ih =>
    intro b P
    have h : m + 1 + b = (m + b) + 1 := by omega
    rw [h]
    show orb (g8 P) (m + b) = orb (orb (g8 P) m) b
    exact ih b (g8 P)

/-- Ladder lemma: if the RK4 map multiplies any population below B by at
least c, then from any start whose c-fold compounding over n steps clears B,
the orbit reaches B within n steps. -/
theorem orb_ladder (c B : ℚ) (hc : 1 ≤ c)
    (hgrow : ∀ Q, 0 ≤ Q → Q ≤ B → c * Q ≤ g8 Q) :
    ∀ (n : ℕ) (P : ℚ), 0 ≤ P → B ≤ c ^ n * P → ∃ m ≤ n, B ≤ orb P m := by
  intro n
  induction n with
  | zero =>
    intro P hP hpow
    refine ⟨0, le_refl 0, ?_⟩
    simpa using hpow
  | succ m ih =>
    intro P hP hpow
    by_cases hB : B ≤ P
    · exact ⟨0, Nat.zero_le _, hB⟩
    · rw [not_le] at hB
      have hgP : c * P ≤ g8 P := hgrow P hP (le_of_lt hB)
      have hcP : 0 ≤ c * P := mul_nonneg (by linarith) hP
      have hgPnn : 0 ≤ g8 P := le_trans hcP hgP
      have hcn : (0 : ℚ) ≤ c ^ m := pow_nonneg (by linarith) m
      have hpow2 : B ≤ c ^ m * g8 P := by
        have h1 : c ^ (m + 1) * P = c ^ m * (c * P) := by ring
        have h2 : c ^ m * (c * P) ≤ c ^ m * g8 P :=
          mul_le_mul_of_nonneg_left hgP hcn
        linarith [hpow, h1 ▸ hpow]
      obtain ⟨j, hj, hBj⟩ := ih (g8 P) hgPnn hpow2
      exact ⟨j + 1, Nat.succ_le_succ hj, hBj⟩

/-- Chaining step: extend a reached rung B1 to the next rung B2 using the
interval growth factor of [0, B2]. -/
theorem ladder_step (B1 B2 : ℚ) (n1 n2 : ℕ) (P : ℚ)
    (hB1pos : 0 < B1) (hB12 : B1 ≤ B2) (hB2le : B2 ≤ 1000)
    (hpow : B2 ≤ (1 + 97 * (1000 - B2) / 2000000) ^ n2 * B1)
    (h : ∃ m ≤ n1, B1 ≤ orb P m) :
    ∃ m ≤ n1 + n2, B2 ≤ orb P m := by
  obtain ⟨m1, hm1, hB1r⟩ := h
  have h0 : 0 ≤ orb P m1 := le_trans (le_of_lt hB1pos) hB1r
  have hcge : (1 : ℚ) ≤ 1 + 97 * (1000 - B2) / 2000000 := by
    have hnn : (0 : ℚ) ≤ 97 * (1000 - B2) / 2000000 :=
      div_nonneg (by linarith) (by norm_num)
    linarith
  have hcn : (0 : ℚ) ≤ (1 + 97 * (1000 - B2) / 2000000) ^ n2 :=
    pow_nonneg (by linarith) n2
  have hpow2 : B2 ≤ (1 + 97 * (1000 - B2) / 2000000) ^ n2 * orb P m1 :=
    le_trans hpow (mul_le_mul_of_nonneg_left hB1r hcn)
  obtain ⟨m2, hm2, hB2r⟩ :=
    orb_ladder (1 + 97 * (1000 - B2) / 2000000) B2 hcge
      (fun Q hQ0 hQB => g8_grow B2 Q hQ0 hQB hB2le) n2 (orb P m1) h0 hpow2
  refine ⟨m1 + m2, by omega, ?_⟩
  rw [orb_add m1 m2 P]
  exact hB2r

/-- Numeric ladder: the scenario orbit started at P0 = 10 reaches the
capacity threshold 999 within 374 RK4 steps. -/
theorem orb_reaches_999 : ∃ m ≤ 374, (999 : ℚ) ≤ orb 10 m := by
  have s1 : ∃ m ≤ 164, (500 : ℚ) ≤ orb 10 m :=
    orb_ladder (1 + 97 * (1000 - 500) / 2000000) 500 (by norm_num)
      (fun Q hQ0 hQB => g8_grow 500 Q hQ0 hQB (by norm_num)) 164 10
      (by norm_num) (by norm_num)
  have s2 := ladder_step 500 750 164 34 10 (by norm_num) (by norm_num)
    (by norm_num) (by norm_num) s1
  have s3 := ladder_step 750 875 (164 + 34) 26 10 (by norm_num) (by norm_num)
    (by norm_num) (by norm_num) s2
  have s4 := ladder_step 875 (1875 / 2) (164 + 34 + 26) 23 10 (by norm_num)
    (by norm_num) (by norm_num) (by norm_num) s3
  have s5 := ladder_step (1875 / 2) (3875 / 4) (164 + 34 + 26 + 23) 22 10
    (by norm_num) (by norm_num) (by norm_num) (by norm_num) s4
  have s6 := ladder_step (3875 / 4) (7875 / 8) (164 + 34 + 26 + 23 + 22) 22 10
    (by norm_num) (by norm_num) (by norm_num) (by norm_num) s5
  have s7 := ladder_step (7875 / 8) (15875 / 16) (164 + 34 + 26 + 23 + 22 + 22)
    21 10 (by norm_num) (by norm_num) (by norm_num) (by norm_num) s6
  have s8 := ladder_step (15875 / 16) (31875 / 32)
    (164 + 34 + 26 + 23 + 22 + 22 + 21) 21 10 (by norm_num) (by norm_num)
    (by norm_num) (by norm_num) s7
  have s9 := ladder_step (31875 / 32) (63875 / 64)
    (164 + 34 + 26 + 23 + 22 + 22 + 21 + 21) 21 10 (by norm_num) (by norm_num)
    (by norm_num) (by norm_num) s8
  have s10 := ladder_step (63875 / 64) 999
    (164 + 34 + 26 + 23 + 22 + 22 + 21 + 21 + 21) 20 10 (by norm_num)
    (by norm_num) (by norm_num) (by norm_num) s9
  obtain ⟨m, hm, h⟩ := s10
  exact ⟨m, by omega, h⟩

/-- Projection lemma: the RK4 step of the scenario loop is the orbit map,
for every time argument. -/
theorem rk4_p8_eq_g8 (t P : ℚ) : runge_kutta_4 t P p8.dt p8 = g8 P := rfl

theorem p8_threshold : p8.K * (999 / 1000) = (999 : ℚ) := by
  norm_num [p8]

theorem simLoop_snd_fire (p : PopulationParams) (t P : ℚ) (n : ℕ)
    (h : p.K * (999 / 1000) ≤ runge_kutta_4 t P p.dt p) :
    (simLoop p t P (n + 1)).2 = some (t + p.dt, runge_kutta_4 t P p.dt p) := by
  rw [simLoop_succ, if_pos h]

theorem simLoop_snd_nofire (p : PopulationParams) (t P : ℚ) (n : ℕ)
    (h : ¬ p.K * (999 / 1000) ≤ runge_kutta_4 t P p.dt p) :
    (simLoop p t P (n + 1)).2 =
      (simLoop p (t + p.dt) (runge_kutta_4 t P p.dt p) n).2 := by
  rw [simLoop_succ, if_neg h]

/-- Firing lemma: if the scenario orbit reaches 999 at some index within the
fuel, the loop records a capacity event at the first such index (with the
event time accumulating one dt per completed iteration). -/
theorem simLoop_fires :
    ∀ (n : ℕ) (t P : ℚ) (m : ℕ), 1 ≤ m → m ≤ n → (999 : ℚ) ≤ orb P m →
      ∃ mf, 1 ≤ mf ∧ mf ≤ m ∧ (999 : ℚ) ≤ orb P mf ∧
        (simLoop p8 t P n).2 = some (t + (mf : ℚ) * p8.dt, orb P mf) := by
  intro n
  induction n with
  | zero =>
    intro t P m hm1 hmn h999
    omega
  | succ k ih =>
    intro t P m hm1 hmn h999
    by_cases hf : (999 : ℚ) ≤ g8 P
    · refine ⟨1, le_refl 1, hm1, hf, ?_⟩
      have hcond : p8.K * (999 / 1000) ≤ runge_kutta_4 t P p8.dt p8 := by
        rw [rk4_p8_eq_g8, p8_threshold]
        exact hf
      rw [simLoop_snd_fire p8 t P k hcond, rk4_p8_eq_g8]
      rw [show orb P 1 = g8 P from rfl]
      norm_num
    · have hm2 : 2 ≤ m := by
        by_contra hcon
        have hm1' : m = 1 := by omega
        subst hm1'
        exact hf h999
      obtain ⟨m', hm'⟩ : ∃ m', m = m' + 1 := ⟨m - 1, by omega⟩
      subst hm'
      have h999' : (999 : ℚ) ≤ orb (g8 P) m' := h999
      obtain ⟨mf, hf1, hfm, hf999, heq⟩ :=
        ih (t + p8.dt) (g8 P) m' (by omega) (by omega) h999'
      refine ⟨mf + 1, by omega, by omega, hf999, ?_⟩
      have hcond : ¬ p8.K * (999 / 1000) ≤ runge_kutta_4 t P p8.dt p8 := by
        rw [rk4_p8_eq_g8, p8_threshold]
        exact hf
      rw [simLoop_snd_nofire p8 t P k hcond, rk4_p8_eq_g8, heq]
      rw [show orb P (mf + 1) = orb (g8 P) mf from rfl]
      simp only [Option.some.injEq, Prod.mk.injEq]
      constructor
      · push_cast
        ring
      · trivial

/-- C8: for the literal scenario r = 0.5, K = 1000, P0 = 10, t_max = 50,
dt = 0.1, the simulation terminates early through the capacity threshold,
with reported event time strictly below 50 and final population at least
999; the equilibria are 0 and 1000 and the maximum growth rate is 125,
attained at population 500. -/
theorem scenario_bacteria :
    (∃ tev Pev, (run_simulation p8).2 = some (tev, Pev) ∧
        tev < 50 ∧ (999 : ℚ) ≤ Pev) ∧
      equilibria p8 = (0, 1000) ∧ maxGrowthRate p8 = (125, 500) := by
  obtain ⟨m, hm374, h999⟩ := orb_reaches_999
  have hm1 : 1 ≤ m := by
    by_contra hcon
    have hm0 : m = 0 := by omega
    subst hm0
    norm_num [orb] at h999
  have hrun : run_simulation p8 = simLoop p8 0 10 501 := by
    have h501 : (501 : ℤ).toNat = 501 := rfl
    norm_num [run_simulation, sim_steps, cIntTrunc, p8, h501]
  obtain ⟨mf, hmf1, hmfm, hf999, heq⟩ :=
    simLoop_fires 501 0 10 m hm1 (by omega) h999
  refine ⟨⟨0 + (mf : ℚ) * p8.dt, orb 10 mf, ?_, ?_, hf999⟩, rfl, ?_⟩
  · rw [hrun]
    exact heq
  · have hcast : (mf : ℚ) ≤ 374 := by
      exact_mod_cast le_trans hmfm hm374
    rw [show p8.dt = 1 / 10 from rfl]
    linarith
  · norm_num [maxGrowthRate, p8]
